import Mathlib

/-!
Shallow embedding of `dataset_manager/utils/utils.py` (class `Utils`) from the
HandSepak repository, together with proofs about its geometry and file-naming
logic.

Modelling conventions:
* Python floats are modelled as rationals (`ℚ`); Python `int(x)` is truncation
  toward zero (`pyInt`).
* `min(list)` / `max(list)` on a possibly-empty list is modelled as an
  `Option`-valued fold (`pymin` / `pymax`); `none` models the Python
  `ValueError` raised on an empty sequence.
* Python decimal rendering of a natural number (as in f-strings) is modelled by
  `natDecimal`; `"%.6f"`-style fixed-point formatting by `renderFixed6`.
* Image buffers are abstract: only the shape `(alto, ancho)` taken from
  `image.shape` enters the geometric computations, and drawing primitives are
  passed in as opaque operations.
-/

namespace HandSepak

/-- One decimal digit as a character, as rendered by Python string formatting. -/
def digitToChar : ℕ → Char
  | 0 => '0'
  | 1 => '1'
  | 2 => '2'
  | 3 => '3'
  | 4 => '4'
  | 5 => '5'
  | 6 => '6'
  | 7 => '7'
  | 8 => '8'
  | 9 => '9'
  | _ => '*'

/-- Numeric value of a digit character (left inverse of `digitToChar`). -/
def charVal (c : Char) : ℕ := c.toNat - 48

/-- Fuel-bounded most-significant-first decimal digit list of `n`
(empty for `n = 0`). -/
def natDecimalAux : ℕ → ℕ → List Char
  | 0, _ => []
  | fuel + 1, n =>
    if n = 0 then [] else natDecimalAux fuel (n / 10) ++ [digitToChar (n % 10)]

/-- Decimal rendering of a natural number, as produced by a Python f-string. -/
def natDecimal (n : ℕ) : String :=
  if n = 0 then "0" else ⟨natDecimalAux n n⟩

/-- Decode a digit-character list back to the natural number it renders. -/
def decodeDigits (l : List Char) : ℕ :=
  l.foldl (fun a c => a * 10 + charVal c) 0

/-- Truncation toward zero, the behaviour of Python `int()` on a float. -/
def pyInt (q : ℚ) : ℤ := if 0 ≤ q then ⌊q⌋ else ⌈q⌉

/-- Python `min(list)`: `none` on the empty list (`ValueError`), otherwise the
left fold of binary `min` over the list. -/
def pymin : List ℚ → Option ℚ
  | [] => none
  | a :: t => some (t.foldl min a)

/-- Python `max(list)`: `none` on the empty list (`ValueError`), otherwise the
left fold of binary `max` over the list. -/
def pymax : List ℚ → Option ℚ
  | [] => none
  | a :: t => some (t.foldl max a)

/-- Zero-padded rendering of the `len` least significant decimal digits of `k`,
as `"%.6f"` renders the fractional part when `len = 6`. -/
def padDigits : ℕ → ℕ → List Char
  | 0, _ => []
  | len + 1, k => padDigits len (k / 10) ++ [digitToChar (k % 10)]

/-- Python `f"{x:.6f}"` fixed-point rendering of a rational, via rounding to six
decimal places. -/
def renderFixed6 (q : ℚ) : String :=
  let n : ℤ := round (q * 1000000)
  let sign : String := if n < 0 then "-" else ""
  let m : ℕ := n.natAbs
  sign ++ natDecimal (m / 1000000) ++ "." ++ ⟨padDigits 6 (m % 1000000)⟩

/-- The numeric value shown by six-decimal formatting: `q` rounded to a
multiple of `10⁻⁶`. -/
def fmt6 (q : ℚ) : ℚ := (round (q * 1000000) : ℚ) / 1000000

/-- The four normalized values computed by `Utils.convert_to_yolo_format`
(`utils.py` lines 70-73), for key points `(k0, k1, k2, k3) = (x1, y1, x2, y2)`. -/
def yolo_vals (image_width image_height : ℚ) (kp : ℚ × ℚ × ℚ × ℚ) : ℚ × ℚ × ℚ × ℚ :=
  ((kp.1 + kp.2.2.1) / 2 / image_width,
   (kp.2.1 + kp.2.2.2) / 2 / image_height,
   |kp.2.2.1 - kp.1| / image_width,
   |kp.2.2.2 - kp.2.1| / image_height)

/-- Embedding of `Utils.convert_to_yolo_format`: the space-separated six-decimal rendering of
the four normalized values (`utils.py` line 75). -/
def convert_to_yolo_format (image_width image_height : ℚ) (kp : ℚ × ℚ × ℚ × ℚ) : String :=
  renderFixed6 (yolo_vals image_width image_height kp).1 ++ " " ++
  renderFixed6 (yolo_vals image_width image_height kp).2.1 ++ " " ++
  renderFixed6 (yolo_vals image_width image_height kp).2.2.1 ++ " " ++
  renderFixed6 (yolo_vals image_width image_height kp).2.2.2

/-- One MediaPipe hand landmark, in normalized image coordinates. -/
structure Landmark where
  x : ℚ
  y : ℚ
  z : ℚ
deriving DecidableEq

/-- The fields of a MediaPipe detection result used by `utils.py`:
`multi_hand_landmarks` (one landmark list per detected hand) and
`multi_handedness` (the `classification[0].label` of each hand). -/
structure DetectionResult where
  multi_hand_landmarks : List (List Landmark)
  multi_handedness : List String
deriving DecidableEq

/-- A pixel-space position triple as appended by `Utils.get_position`. -/
abbrev Pos := ℚ × ℚ × ℚ

/-- Value `lm.x * ancho`, the x key point of a landmark in an `alto × ancho` image. -/
def keypointX (ancho : ℕ) (lm : Landmark) : ℚ := lm.x * ancho

/-- Value `lm.y * alto`, the y key point of a landmark in an `alto × ancho` image. -/
def keypointY (alto : ℕ) (lm : Landmark) : ℚ := lm.y * alto

/-- List `keypoints[0::2]` of one hand: its landmarks scaled to pixel x coordinates. -/
def handKeypointsX (ancho : ℕ) (hand : List Landmark) : List ℚ :=
  hand.map (keypointX ancho)

/-- List `keypoints[1::2]` of one hand: its landmarks scaled to pixel y coordinates. -/
def handKeypointsY (alto : ℕ) (hand : List Landmark) : List ℚ :=
  hand.map (keypointY alto)

/-- Outcome of one `Utils.anotation_data` call. `line s` is a successful append
of the single string `s` to the annotation file; `invalidInput` is the explicit
guarded rejection the specification describes for an empty detection result;
`nameError` models the Python `NameError` raised when the per-hand loop never
ran and the loop-local `ancho`/`alto` are unbound at line 133; `valueError`
models the `ValueError` of `min`/`max` on an empty key-point list. -/
inductive AnnotResult where
  | line (s : String)
  | invalidInput
  | nameError
  | valueError
deriving DecidableEq

/-- The accumulation loop of `Utils.anotation_data` (`utils.py` lines 109-126):
running extrema start at `float(inf)`/`float(-inf)`, modelled by the inner
`Option` being `none` until the first hand is folded in. The outer `Option` is
`none` when a hand has no landmarks (Python `ValueError` from `min`/`max`). -/
def unionLoop (alto ancho : ℕ) :
    List (List Landmark) → Option (ℚ × ℚ × ℚ × ℚ) → Option (Option (ℚ × ℚ × ℚ × ℚ))
  | [], acc => some acc
  | h :: t, acc =>
    match pymin (handKeypointsX ancho h), pymin (handKeypointsY alto h),
          pymax (handKeypointsX ancho h), pymax (handKeypointsY alto h) with
    | some hxmin, some hymin, some hxmax, some hymax =>
      unionLoop alto ancho t
        (match acc with
         | none => some (hxmin, hymin, hxmax, hymax)
         | some (a, b, c, d) =>
           some (min a hxmin, min b hymin, max c hxmax, max d hymax))
    | _, _, _, _ => none

/-- Embedding of `Utils.anotation_data` (`utils.py` lines 102-134): fold the union bounding
box over all hands, pad by 20 on each side, and append one
`"{class_index} {yolo}\n"` line. With zero hands the loop never runs, so the
loop-local `ancho`/`alto` used at line 133 are unbound (`NameError`); there is
no guard. -/
def anotation_data (results : DetectionResult) (alto ancho : ℕ)
    (class_index : ℕ) : AnnotResult :=
  match unionLoop alto ancho results.multi_hand_landmarks none with
  | none => .valueError
  | some none => .nameError
  | some (some (x_min, y_min, x_max, y_max)) =>
    .line (natDecimal class_index ++ " " ++
      convert_to_yolo_format (ancho : ℚ) (alto : ℚ)
        (x_min - 20, y_min - 20, x_max + 20, y_max + 20) ++ "\n")

/-- The pixel-space triple `(lm.x * ancho, lm.y * alto, lm.z * ancho)` appended
by `Utils.get_position` (`utils.py` line 160). -/
def scalePoint (alto ancho : ℕ) (lm : Landmark) : Pos :=
  (lm.x * ancho, lm.y * alto, lm.z * ancho)

/-- Embedding of `Utils.get_position` (`utils.py` lines 156-160): append the scaled landmark
triples of every detected hand to the accumulator. -/
def get_position (positions : List Pos) (results : DetectionResult)
    (alto ancho : ℕ) : List Pos :=
  results.multi_hand_landmarks.foldl
    (fun ps hand => ps ++ hand.map (scalePoint alto ancho)) positions

/-- Embedding of `Utils.Detect_hand_type` (`utils.py` lines 136-154). The `for` loop over
`multi_handedness` returns at the end of its first iteration, so only the head
label is ever examined; with an empty handedness list the loop body never runs
and the function falls through, returning Python `None` (modelled `none`). -/
def Detect_hand_type (hand_type : String) (results : DetectionResult)
    (positions : List Pos) (alto ancho : ℕ) : Option (List Pos) :=
  match results.multi_handedness with
  | [] => none
  | label :: _ =>
    let p1 := if label = hand_type then get_position positions results alto ancho
              else positions
    let p2 := if hand_type = "all" then get_position p1 results alto ancho else p1
    some p2

/-- Embedding of `Utils.Draw_Bound_Boxes` (`utils.py` lines 164-185), with the image buffer
abstracted: `rectOp` is `cv2.rectangle` at the two given corners and `textOp`
is `cv2.putText` at the given origin. Returns `none` when `positions` is empty
(Python `ValueError` from `min`); otherwise `some` of the resulting buffer,
which is the untouched `frame` whenever the guarding bounds test fails. -/
def Draw_Bound_Boxes {β : Type} (rectOp : β → ℤ × ℤ → ℤ × ℤ → β)
    (textOp : β → ℤ × ℤ → β) (offset : ℤ) (positions : List Pos)
    (alto ancho : ℤ) (frame : β) : Option β :=
  match pymin (positions.map fun p => p.1), pymin (positions.map fun p => p.2.1),
        pymax (positions.map fun p => p.1), pymax (positions.map fun p => p.2.1) with
  | some qxmin, some qymin, some qxmax, some qymax =>
    let x_min := pyInt qxmin
    let y_min := pyInt qymin
    let x_max := pyInt qxmax
    let y_max := pyInt qymax
    let width := x_max - x_min
    let height := y_max - y_min
    let x1 := x_min
    let y1 := y_min
    let x2 := x_min + width
    let y2 := y_min + height
    if 0 ≤ y1 - offset - 15 ∧ y2 - offset + 40 ≤ alto ∧
       0 ≤ x1 - offset - 40 ∧ x2 - offset + 50 ≤ ancho then
      some (textOp
        (rectOp frame (x1 - offset - 40, y1 - offset - 15)
          (x2 - offset + 50, y2 - offset + 40))
        (x1 - offset - 40, y1 - offset - 20))
    else
      some frame
  | _, _, _, _ => none

/-- Clamping of an integer index into `[0, n]`, as numpy slicing clamps slice
bounds before taking `a[lo:hi]`. -/
def clampIdx (i n : ℤ) : ℤ := max 0 (min i n)

/-- Embedding of `Utils.Get_image_resized` (`utils.py` lines 187-214), tracking dimensions:
returns the shape of the resized image, `none` when `positions` is empty
(`ValueError`), when the crop `copie_img[y1:y2, x1:x2]` is empty, or when
`imgSize = 0` (`cv2.resize` raises on an empty source or empty target size).
The source reuses the names `ancho`/`alto` for the crop extents computed at
lines 207-208; they appear here as `anchoCrop`/`altoCrop`. -/
def Get_image_resized (imgSize : ℕ) (positions : List Pos)
    (alto ancho : ℕ) : Option (ℕ × ℕ) :=
  match pymin (positions.map fun p => p.1), pymin (positions.map fun p => p.2.1),
        pymax (positions.map fun p => p.1), pymax (positions.map fun p => p.2.1) with
  | some qxmin, some qymin, some qxmax, some qymax =>
    let x_min := pyInt qxmin
    let y_min := pyInt qymin
    let x_max := pyInt qxmax
    let y_max := pyInt qymax
    let width := x_max - x_min
    let height := y_max - y_min
    let centro_x := pyInt (((x_min + x_max : ℤ) : ℚ) / 2)
    let centro_y := pyInt (((y_min + y_max : ℤ) : ℚ) / 2)
    let lado := max width height
    let x1 := max 0 (centro_x - pyInt ((lado : ℚ) / 2) - 50)
    let y1 := max 0 (centro_y - pyInt ((lado : ℚ) / 2) - 50)
    let anchoCrop := min ((ancho : ℤ) - x1) (lado + 100)
    let altoCrop := min ((alto : ℤ) - y1) (lado + 100)
    let x2 := x1 + anchoCrop
    let y2 := y1 + altoCrop
    let cropW := clampIdx x2 (ancho : ℤ) - clampIdx x1 (ancho : ℤ)
    let cropH := clampIdx y2 (alto : ℤ) - clampIdx y1 (alto : ℤ)
    if cropW ≤ 0 ∨ cropH ≤ 0 ∨ imgSize = 0 then none
    else some (imgSize, imgSize)
  | _, _, _, _ => none

/-- The path of `f'sequence {sequence} capture {hand_type} {count}.png'` joined
under `DATA_PATH/action` (`utils.py` lines 226-227), without the `".png"`
suffix so that the `_{index}` variants below share it. -/
def base_name (DATA_PATH action hand_type : String) (sequence count : ℕ) : String :=
  DATA_PATH ++ "/" ++ action ++ "/" ++ "sequence " ++ natDecimal sequence ++
    " capture " ++ hand_type ++ " " ++ natDecimal count

/-- The suffixed candidate `f'... {count}_{index}.png'` probed by the collision
loop (`utils.py` line 234). -/
def suffixed_name (base : String) (index : ℕ) : String :=
  base ++ "_" ++ natDecimal index ++ ".png"

/-- The `while True` probe loop of `Utils.Save_resized_hand` (`utils.py` lines
231-239), given explicit fuel: starting at `index`, return the first suffixed
candidate that is not among the existing paths `taken`. -/
def probe_free_name (taken : List String) (base : String) : ℕ → ℕ → Option String
  | 0, _ => none
  | fuel + 1, index =>
    if suffixed_name base index ∈ taken then
      probe_free_name taken base fuel (index + 1)
    else
      some (suffixed_name base index)

/-- The path chosen for one `(action, sequence)` iteration of
`Utils.Save_resized_hand` (`utils.py` lines 224-240): the canonical path when
it does not exist yet, otherwise the first free `_{index}` variant starting
from index 1. The filesystem is the list `taken` of existing paths; fuel
`taken.length + 1` is justified by `probe_always_finds_free` below. -/
def Save_resized_hand_path (taken : List String)
    (DATA_PATH action hand_type : String) (sequence count : ℕ) : Option String :=
  let base := base_name DATA_PATH action hand_type sequence count
  let image_path := base ++ ".png"
  if image_path ∈ taken then
    probe_free_name taken base (taken.length + 1) 1
  else
    some image_path

/-- Spec-side (§4.3): the pixel-scaled x coordinates of the union of every
hand's landmark points in the frame. -/
def unionPointsX (ancho : ℕ) (hands : List (List Landmark)) : List ℚ :=
  hands.flatten.map (keypointX ancho)

/-- Spec-side (§4.3): the pixel-scaled y coordinates of the union of every
hand's landmark points in the frame. -/
def unionPointsY (alto : ℕ) (hands : List (List Landmark)) : List ℚ :=
  hands.flatten.map (keypointY alto)

/-- Spec-side (§4.5): the offset-padded rectangle
`(x_min - offset - 40, y_min - offset - 15)` to
`(x_max - offset + 50, y_max - offset + 40)`. -/
def paddedRect (offset x_min y_min x_max y_max : ℤ) : (ℤ × ℤ) × (ℤ × ℤ) :=
  ((x_min - offset - 40, y_min - offset - 15),
   (x_max - offset + 50, y_max - offset + 40))

/-- Spec-side (§4.5): a point lies within the bounds of an `alto × ancho`
frame. -/
def pointInFrame (alto ancho : ℤ) (p : ℤ × ℤ) : Prop :=
  0 ≤ p.1 ∧ p.1 ≤ ancho ∧ 0 ≤ p.2 ∧ p.2 ≤ alto

/-- Spec-side (§4.5): a rectangle, given by its two corners, lies fully within
the bounds of an `alto × ancho` frame. -/
def rectFullyInFrame (alto ancho : ℤ) (r : (ℤ × ℤ) × (ℤ × ℤ)) : Prop :=
  pointInFrame alto ancho r.1 ∧ pointInFrame alto ancho r.2

theorem charVal_digitToChar : ∀ d, d < 10 → charVal (digitToChar d) = d := by decide

theorem natDecimalAux_foldl (step : ℕ → Char → ℕ)
    (hstep : ∀ a c, step a c = a * 10 + charVal c) :
    ∀ fuel n a, n ≤ fuel →
      (natDecimalAux fuel n).foldl step a =
        a * 10 ^ (natDecimalAux fuel n).length + n := by
  intro fuel
  induction fuel with
  | zero =>
    intro n a hn
    interval_cases n
    simp [natDecimalAux]
  | succ fuel ih =>
    intro n a hn
    by_cases h0 : n = 0
    · subst h0; simp [natDecimalAux]
    · have hdiv : n / 10 ≤ fuel := by
        have : n / 10 < n := Nat.div_lt_self (Nat.pos_of_ne_zero h0) (by norm_num)
        omega
      have hmod : n % 10 < 10 := Nat.mod_lt _ (by norm_num)
      simp only [natDecimalAux, if_neg h0, List.foldl_append, List.length_append,
        List.foldl_cons, List.foldl_nil, List.length_cons, List.length_nil]
      rw [ih (n / 10) a hdiv, hstep, charVal_digitToChar _ hmod]
      have : n / 10 * 10 + n % 10 = n := by omega
      ring_nf
      omega

theorem decodeDigits_natDecimal (n : ℕ) : decodeDigits (natDecimal n).data = n := by
  by_cases h0 : n = 0
  · subst h0; decide
  · have h := natDecimalAux_foldl (fun a c => a * 10 + charVal c) (fun _ _ => rfl)
      n n 0 le_rfl
    simpa [natDecimal, h0, decodeDigits] using h

theorem natDecimal_injective : Function.Injective natDecimal := by
  intro m n h
  have := congrArg (fun s : String => decodeDigits s.data) h
  simpa [decodeDigits_natDecimal] using this

theorem pyInt_of_nonneg {q : ℚ} (h : 0 ≤ q) : pyInt q = ⌊q⌋ := by
  simp [pyInt, h]

theorem pyInt_mono : Monotone pyInt := by
  intro a b hab
  by_cases ha : 0 ≤ a
  · have hb : 0 ≤ b := le_trans ha hab
    simp only [pyInt, if_pos ha, if_pos hb]
    exact Int.floor_mono hab
  · by_cases hb : 0 ≤ b
    · simp only [pyInt, if_neg ha, if_pos hb]
      calc ⌈a⌉ ≤ 0 := Int.ceil_le.2 (by exact_mod_cast le_of_not_le ha)
        _ ≤ ⌊b⌋ := Int.floor_nonneg.2 hb
    · simp only [pyInt, if_neg ha, if_neg hb]
      exact Int.ceil_mono hab

theorem foldl_min_eq_min_foldl (l : List ℚ) :
    ∀ a x, l.foldl min (min a x) = min a (l.foldl min x) := by
  induction l with
  | nil => intro a x; simp
  | cons b t ih =>
    intro a x
    simp only [List.foldl_cons]
    rw [min_assoc, ih]

theorem foldl_max_eq_max_foldl (l : List ℚ) :
    ∀ a x, l.foldl max (max a x) = max a (l.foldl max x) := by
  induction l with
  | nil => intro a x; simp
  | cons b t ih =>
    intro a x
    simp only [List.foldl_cons]
    rw [max_assoc, ih]

theorem foldl_min_mem (l : List ℚ) : ∀ a, l.foldl min a = a ∨ l.foldl min a ∈ l := by
  induction l with
  | nil => intro a; simp
  | cons b t ih =>
    intro a
    simp only [List.foldl_cons]
    rcases ih (min a b) with h | h
    · rcases min_cases a b with ⟨hm, _⟩ | ⟨hm, _⟩
      · exact Or.inl (h.trans hm)
      · exact Or.inr (by rw [h, hm]; exact List.mem_cons_self b t)
    · exact Or.inr (List.mem_cons_of_mem b h)

theorem foldl_max_mem (l : List ℚ) : ∀ a, l.foldl max a = a ∨ l.foldl max a ∈ l := by
  induction l with
  | nil => intro a; simp
  | cons b t ih =>
    intro a
    simp only [List.foldl_cons]
    rcases ih (max a b) with h | h
    · rcases max_cases a b with ⟨hm, _⟩ | ⟨hm, _⟩
      · exact Or.inl (h.trans hm)
      · exact Or.inr (by rw [h, hm]; exact List.mem_cons_self b t)
    · exact Or.inr (List.mem_cons_of_mem b h)

theorem foldl_min_le_init (l : List ℚ) : ∀ a, l.foldl min a ≤ a := by
  induction l with
  | nil => intro a; simp
  | cons b t ih =>
    intro a
    simp only [List.foldl_cons]
    calc t.foldl min (min a b) ≤ min a b := ih (min a b)
      _ ≤ a := min_le_left a b

theorem foldl_min_le_mem (l : List ℚ) : ∀ a b, b ∈ l → l.foldl min a ≤ b := by
  induction l with
  | nil => intro a b hb; cases hb
  | cons c t ih =>
    intro a b hb
    simp only [List.foldl_cons]
    rcases List.mem_cons.1 hb with rfl | hb
    · calc t.foldl min (min a b) ≤ min a b := foldl_min_le_init t (min a b)
        _ ≤ b := min_le_right a b
    · exact ih (min a c) b hb

theorem init_le_foldl_max (l : List ℚ) : ∀ a, a ≤ l.foldl max a := by
  induction l with
  | nil => intro a; simp
  | cons b t ih =>
    intro a
    simp only [List.foldl_cons]
    calc a ≤ max a b := le_max_left a b
      _ ≤ t.foldl max (max a b) := ih (max a b)

theorem mem_le_foldl_max (l : List ℚ) : ∀ a b, b ∈ l → b ≤ l.foldl max a := by
  induction l with
  | nil => intro a b hb; cases hb
  | cons c t ih =>
    intro a b hb
    simp only [List.foldl_cons]
    rcases List.mem_cons.1 hb with rfl | hb
    · calc b ≤ max a b := le_max_right a b
        _ ≤ t.foldl max (max a b) := init_le_foldl_max t (max a b)
    · exact ih (max a c) b hb

theorem pymin_mem {l : List ℚ} {q : ℚ} (h : pymin l = some q) : q ∈ l := by
  cases l with
  | nil => cases h
  | cons a t =>
    simp only [pymin, Option.some.injEq] at h
    rcases foldl_min_mem t a with h' | h'
    · rw [← h, h']; exact List.mem_cons_self a t
    · rw [← h]; exact List.mem_cons_of_mem a h'

theorem pymin_le {l : List ℚ} {q : ℚ} (h : pymin l = some q) :
    ∀ b ∈ l, q ≤ b := by
  cases l with
  | nil => cases h
  | cons a t =>
    simp only [pymin, Option.some.injEq] at h
    intro b hb
    rcases List.mem_cons.1 hb with rfl | hb
    · rw [← h]; exact foldl_min_le_init t b
    · rw [← h]; exact foldl_min_le_mem t a b hb

theorem pymax_mem {l : List ℚ} {q : ℚ} (h : pymax l = some q) : q ∈ l := by
  cases l with
  | nil => cases h
  | cons a t =>
    simp only [pymax, Option.some.injEq] at h
    rcases foldl_max_mem t a with h' | h'
    · rw [← h, h']; exact List.mem_cons_self a t
    · rw [← h]; exact List.mem_cons_of_mem a h'

theorem pymax_ge {l : List ℚ} {q : ℚ} (h : pymax l = some q) :
    ∀ b ∈ l, b ≤ q := by
  cases l with
  | nil => cases h
  | cons a t =>
    simp only [pymax, Option.some.injEq] at h
    intro b hb
    rcases List.mem_cons.1 hb with rfl | hb
    · rw [← h]; exact init_le_foldl_max t b
    · rw [← h]; exact mem_le_foldl_max t a b hb

theorem pymin_isSome {l : List ℚ} (h : l ≠ []) : ∃ q, pymin l = some q := by
  cases l with
  | nil => exact absurd rfl h
  | cons a t => exact ⟨t.foldl min a, rfl⟩

theorem pymax_isSome {l : List ℚ} (h : l ≠ []) : ∃ q, pymax l = some q := by
  cases l with
  | nil => exact absurd rfl h
  | cons a t => exact ⟨t.foldl max a, rfl⟩

theorem round_rat_mono {a b : ℚ} (h : a ≤ b) : round a ≤ round b := by
  rw [round_eq, round_eq]
  exact Int.floor_mono (by linarith)

theorem fmt6_nonneg {q : ℚ} (h0 : 0 ≤ q) : 0 ≤ fmt6 q := by
  unfold fmt6
  apply div_nonneg _ (by norm_num)
  have h : round (0 : ℚ) ≤ round (q * 1000000) := round_rat_mono (by positivity)
  rw [round_zero] at h
  exact_mod_cast h

theorem fmt6_le_one {q : ℚ} (h1 : q ≤ 1) : fmt6 q ≤ 1 := by
  unfold fmt6
  rw [div_le_one (by norm_num)]
  have h : round (q * 1000000) ≤ round ((1000000 : ℤ) : ℚ) :=
    round_rat_mono (by push_cast; nlinarith)
  rw [round_intCast] at h
  exact_mod_cast h

theorem renderFixed6_half : renderFixed6 (1 / 2 : ℚ) = "0.500000" := by
  have h : round ((1 / 2 : ℚ) * 1000000) = 500000 := by
    rw [show (1 / 2 : ℚ) * 1000000 = ((500000 : ℤ) : ℚ) by norm_num, round_intCast]
  simp only [renderFixed6, h]
  decide

theorem renderFixed6_one : renderFixed6 (1 : ℚ) = "1.000000" := by
  have h : round ((1 : ℚ) * 1000000) = 1000000 := by
    rw [show (1 : ℚ) * 1000000 = ((1000000 : ℤ) : ℚ) by norm_num, round_intCast]
  simp only [renderFixed6, h]
  decide

/-- C1: `convert_to_yolo_format` computes `x_center = (x1+x2)/2/W`,
`y_center = (y1+y2)/2/H`, `width = |x2-x1|/W`, `height = |y2-y1|/H`, each
formatted to six decimal digits; for a box fully inside the image all four
formatted output values lie in `[0, 1]`, and for the full-image box
`[0, 0, W, H]` the output is exactly `(0.5, 0.5, 1.0, 1.0)`. -/
theorem C1_convert_to_yolo_format (W H x1 y1 x2 y2 : ℚ) (hW : 0 < W) (hH : 0 < H) :
    yolo_vals W H (x1, y1, x2, y2) =
      ((x1 + x2) / 2 / W, (y1 + y2) / 2 / H, |x2 - x1| / W, |y2 - y1| / H) ∧
    (0 ≤ x1 → x1 ≤ W → 0 ≤ x2 → x2 ≤ W → 0 ≤ y1 → y1 ≤ H → 0 ≤ y2 → y2 ≤ H →
      (0 ≤ fmt6 ((x1 + x2) / 2 / W) ∧ fmt6 ((x1 + x2) / 2 / W) ≤ 1) ∧
      (0 ≤ fmt6 ((y1 + y2) / 2 / H) ∧ fmt6 ((y1 + y2) / 2 / H) ≤ 1) ∧
      (0 ≤ fmt6 (|x2 - x1| / W) ∧ fmt6 (|x2 - x1| / W) ≤ 1) ∧
      (0 ≤ fmt6 (|y2 - y1| / H) ∧ fmt6 (|y2 - y1| / H) ≤ 1)) ∧
    convert_to_yolo_format W H (0, 0, W, H) =
      "0.500000 0.500000 1.000000 1.000000" := by
  refine ⟨rfl, ?_, ?_⟩
  · intro hx1 hx1W hx2 hx2W hy1 hy1H hy2 hy2H
    have bx : 0 ≤ (x1 + x2) / 2 / W ∧ (x1 + x2) / 2 / W ≤ 1 := by
      constructor
      · positivity
      · rw [div_le_one hW]; linarith
    have by' : 0 ≤ (y1 + y2) / 2 / H ∧ (y1 + y2) / 2 / H ≤ 1 := by
      constructor
      · positivity
      · rw [div_le_one hH]; linarith
    have bw : 0 ≤ |x2 - x1| / W ∧ |x2 - x1| / W ≤ 1 := by
      constructor
      · positivity
      · rw [div_le_one hW]; rw [abs_le]; constructor <;> linarith
    have bh : 0 ≤ |y2 - y1| / H ∧ |y2 - y1| / H ≤ 1 := by
      constructor
      · positivity
      · rw [div_le_one hH]; rw [abs_le]; constructor <;> linarith
    exact ⟨⟨fmt6_nonneg bx.1, fmt6_le_one bx.2⟩, ⟨fmt6_nonneg by'.1, fmt6_le_one by'.2⟩,
      ⟨fmt6_nonneg bw.1, fmt6_le_one bw.2⟩, ⟨fmt6_nonneg bh.1, fmt6_le_one bh.2⟩⟩
  · have e1 : (0 + W) / 2 / W = (1 / 2 : ℚ) := by
      field_simp
      ring
    have e2 : (0 + H) / 2 / H = (1 / 2 : ℚ) := by
      field_simp
      ring
    have e3 : |W - 0| / W = (1 : ℚ) := by
      rw [sub_zero, abs_of_pos hW, div_self hW.ne']
    have e4 : |H - 0| / H = (1 : ℚ) := by
      rw [sub_zero, abs_of_pos hH, div_self hH.ne']
    unfold convert_to_yolo_format yolo_vals
    simp only
    rw [e1, e2, e3, e4, renderFixed6_half, renderFixed6_one]
    rfl

theorem C1_convert_to_yolo_format_witness :
    (0 : ℚ) < 1 ∧
    (yolo_vals 1 1 ((0 : ℚ), (0 : ℚ), (1 : ℚ), (1 : ℚ)) =
        ((0 + 1) / 2 / 1, (0 + 1) / 2 / 1, |1 - 0| / 1, |1 - 0| / 1) ∧
     ((0 : ℚ) ≤ 0 → (0 : ℚ) ≤ 1 → (0 : ℚ) ≤ 1 → (1 : ℚ) ≤ 1 →
      (0 : ℚ) ≤ 0 → (0 : ℚ) ≤ 1 → (0 : ℚ) ≤ 1 → (1 : ℚ) ≤ 1 →
      (0 ≤ fmt6 (((0 : ℚ) + 1) / 2 / 1) ∧ fmt6 (((0 : ℚ) + 1) / 2 / 1) ≤ 1) ∧
      (0 ≤ fmt6 (((0 : ℚ) + 1) / 2 / 1) ∧ fmt6 (((0 : ℚ) + 1) / 2 / 1) ≤ 1) ∧
      (0 ≤ fmt6 (|(1 : ℚ) - 0| / 1) ∧ fmt6 (|(1 : ℚ) - 0| / 1) ≤ 1) ∧
      (0 ≤ fmt6 (|(1 : ℚ) - 0| / 1) ∧ fmt6 (|(1 : ℚ) - 0| / 1) ≤ 1)) ∧
     convert_to_yolo_format 1 1 ((0 : ℚ), (0 : ℚ), (1 : ℚ), (1 : ℚ)) =
       "0.500000 0.500000 1.000000 1.000000") :=
  ⟨by norm_num, C1_convert_to_yolo_format 1 1 0 0 1 1 (by norm_num) (by norm_num)⟩

/-- C3 counterexample: on a detection result with zero hands, `anotation_data`
does not produce an explicit guarded `invalidInput` rejection: it reaches the
use of the unbound loop locals and crashes (Python `NameError`). -/
theorem C3_counterexample :
    anotation_data ⟨[], []⟩ 100 100 0 = AnnotResult.nameError ∧
    AnnotResult.nameError ≠ AnnotResult.invalidInput :=
  ⟨rfl, by decide⟩

/-- C3 (amended): for every detection result with zero hands, `anotation_data`
fails, but with an unguarded crash — the per-hand loop never runs, so the
loop-local `ancho`/`alto` consumed at line 133 are unbound (`NameError`) —
rather than with an explicit InvalidInput rejection. -/
theorem C3_empty_detection_nameError (labels : List String)
    (alto ancho class_index : ℕ) :
    anotation_data ⟨[], labels⟩ alto ancho class_index = AnnotResult.nameError := rfl

/-- C7 counterexample: with zero hands, `Detect_hand_type` does not return the
accumulator — the loop body never runs and the function falls through,
returning Python `None`. -/
theorem C7_counterexample :
    Detect_hand_type "Left" ⟨[], []⟩ [((1 : ℚ), (2 : ℚ), (3 : ℚ))] 10 10 = none ∧
    (none : Option (List Pos)) ≠ some [((1 : ℚ), (2 : ℚ), (3 : ℚ))] :=
  ⟨rfl, by decide⟩

/-- C7 (amended): for a `Left`/`Right` filter (any filter other than `"all"`)
and a detection result with at least one hand none of whose handedness labels
matches the filter, `Detect_hand_type` leaves the accumulator unchanged,
raises no error, and returns the accumulator. With zero hands it instead falls
off the loop and returns Python `None`, not the accumulator. -/
theorem C7_no_match_unchanged (hand_type : String) (results : DetectionResult)
    (positions : List Pos) (alto ancho : ℕ)
    (h1 : results.multi_handedness ≠ [])
    (h2 : hand_type ≠ "all")
    (h3 : ∀ l ∈ results.multi_handedness, l ≠ hand_type) :
    Detect_hand_type hand_type results positions alto ancho = some positions := by
  obtain ⟨hands, labels⟩ := results
  cases labels with
  | nil => exact absurd rfl h1
  | cons l rest =>
    have hl : l ≠ hand_type := h3 l (List.mem_cons_self _ _)
    simp [Detect_hand_type, hl, h2]

theorem C7_no_match_unchanged_witness :
    (DetectionResult.mk [[Landmark.mk 0 0 0]] ["Right"]).multi_handedness ≠ [] ∧
    ("Left" : String) ≠ "all" ∧
    (∀ l ∈ (DetectionResult.mk [[Landmark.mk 0 0 0]] ["Right"]).multi_handedness,
      l ≠ "Left") ∧
    Detect_hand_type "Left" ⟨[[Landmark.mk 0 0 0]], ["Right"]⟩
        [((1 : ℚ), (2 : ℚ), (3 : ℚ))] 10 10 = some [((1 : ℚ), (2 : ℚ), (3 : ℚ))] :=
  ⟨by decide, by decide, by decide,
    C7_no_match_unchanged "Left" ⟨[[Landmark.mk 0 0 0]], ["Right"]⟩
      [((1 : ℚ), (2 : ℚ), (3 : ℚ))] 10 10 (by decide) (by decide) (by decide)⟩

theorem get_position_eq_append (positions : List Pos) (results : DetectionResult)
    (alto ancho : ℕ) :
    get_position positions results alto ancho =
      positions ++ results.multi_hand_landmarks.flatten.map (scalePoint alto ancho) := by
  unfold get_position
  generalize results.multi_hand_landmarks = hands
  induction hands generalizing positions with
  | nil => simp
  | cons h t ih =>
    simp only [List.foldl_cons, List.flatten_cons, List.map_append, ih,
      List.append_assoc]

/-- C8 counterexample: with two hands and the `"all"` filter, the second
hand's landmark point `(10, 10, 0)` is appended to the accumulator even though
it is not among the first hand's scaled points, contradicting the reading that
only the first hand's landmark points are ever appended. -/
theorem C8_counterexample :
    Detect_hand_type "all" ⟨[[Landmark.mk 0 0 0], [Landmark.mk 1 1 0]],
        ["Left", "Right"]⟩ [] 10 10 =
      some [((0 : ℚ), (0 : ℚ), (0 : ℚ)), ((10 : ℚ), (10 : ℚ), (0 : ℚ))] ∧
    ((10 : ℚ), (10 : ℚ), (0 : ℚ)) ∉ [Landmark.mk 0 0 0].map (scalePoint 10 10) := by
  constructor
  · simp [Detect_hand_type, get_position, scalePoint]
  · simp [scalePoint, Prod.ext_iff]

/-- C8 (amended): `Detect_hand_type` returns at the end of the first iteration
over the handedness list, so only the first handedness label is ever consulted
(the result is independent of the remaining labels); but each `get_position`
call appends the landmark points of all detected hands, so whenever the first
label matches the filter, or the filter is `"all"`, every hand's points are
appended — not only the first hand's. -/
theorem C8_first_label_only (hand_type : String) (hands : List (List Landmark))
    (l : String) (rest rest' : List String) (positions : List Pos)
    (alto ancho : ℕ) :
    Detect_hand_type hand_type ⟨hands, l :: rest⟩ positions alto ancho =
      Detect_hand_type hand_type ⟨hands, l :: rest'⟩ positions alto ancho ∧
    Detect_hand_type hand_type ⟨hands, l :: rest⟩ positions alto ancho =
      some (if hand_type = "all"
        then (if l = hand_type
              then positions ++ hands.flatten.map (scalePoint alto ancho)
              else positions) ++ hands.flatten.map (scalePoint alto ancho)
        else (if l = hand_type
              then positions ++ hands.flatten.map (scalePoint alto ancho)
              else positions)) := by
  constructor
  · rfl
  · by_cases hl : l = hand_type <;> by_cases ha : hand_type = "all" <;>
      simp [Detect_hand_type, hl, ha, get_position_eq_append]

theorem pyInt_nonneg {q : ℚ} (h : 0 ≤ q) : 0 ≤ pyInt q := by
  rw [pyInt_of_nonneg h]
  exact Int.floor_nonneg.2 h

theorem pyInt_lt_nat {q : ℚ} {n : ℕ} (h0 : 0 ≤ q) (h : q < (n : ℚ)) :
    pyInt q < (n : ℤ) := by
  rw [pyInt_of_nonneg h0]
  refine Int.floor_lt.2 ?_
  push_cast
  exact h

theorem pyInt_le_int {q : ℚ} {z : ℤ} (h0 : 0 ≤ q) (h : q ≤ (z : ℚ)) :
    pyInt q ≤ z := by
  rw [pyInt_of_nonneg h0]
  calc ⌊q⌋ ≤ ⌊((z : ℚ))⌋ := Int.floor_mono h
    _ = z := Int.floor_intCast z

theorem pymin_le_pymax {l : List ℚ} {a b : ℚ}
    (ha : pymin l = some a) (hb : pymax l = some b) : a ≤ b :=
  le_trans (pymin_le ha b (pymax_mem hb)) le_rfl

/-- C6: for a non-empty position list, `Draw_Bound_Boxes` draws the rectangle
and class-label caption exactly when the offset-padded rectangle
`(x_min - offset - 40, y_min - offset - 15)` to
`(x_max - offset + 50, y_max - offset + 40)` lies fully within the frame
bounds; otherwise it is a silent no-op leaving the frame unchanged — in
particular, whenever `y_min - offset - 15 = -1`, no drawing occurs. -/
theorem C6_draw_bound_boxes {β : Type} (rectOp : β → ℤ × ℤ → ℤ × ℤ → β)
    (textOp : β → ℤ × ℤ → β) (offset : ℤ) (positions : List Pos)
    (alto ancho : ℤ) (frame : β) (qxmin qymin qxmax qymax : ℚ)
    (hx : pymin (positions.map fun p => p.1) = some qxmin)
    (hy : pymin (positions.map fun p => p.2.1) = some qymin)
    (hX : pymax (positions.map fun p => p.1) = some qxmax)
    (hY : pymax (positions.map fun p => p.2.1) = some qymax) :
    (rectFullyInFrame alto ancho
        (paddedRect offset (pyInt qxmin) (pyInt qymin) (pyInt qxmax) (pyInt qymax)) →
      Draw_Bound_Boxes rectOp textOp offset positions alto ancho frame =
        some (textOp
          (rectOp frame (pyInt qxmin - offset - 40, pyInt qymin - offset - 15)
            (pyInt qxmax - offset + 50, pyInt qymax - offset + 40))
          (pyInt qxmin - offset - 40, pyInt qymin - offset - 20))) ∧
    (¬ rectFullyInFrame alto ancho
        (paddedRect offset (pyInt qxmin) (pyInt qymin) (pyInt qxmax) (pyInt qymax)) →
      Draw_Bound_Boxes rectOp textOp offset positions alto ancho frame = some frame) ∧
    (pyInt qymin - offset - 15 = -1 →
      Draw_Bound_Boxes rectOp textOp offset positions alto ancho frame = some frame) := by
  have hxm : pyInt qxmin ≤ pyInt qxmax := pyInt_mono (pymin_le_pymax hx hX)
  have hym : pyInt qymin ≤ pyInt qymax := pyInt_mono (pymin_le_pymax hy hY)
  have hiff : (0 ≤ pyInt qymin - offset - 15 ∧
      pyInt qymin + (pyInt qymax - pyInt qymin) - offset + 40 ≤ alto ∧
      0 ≤ pyInt qxmin - offset - 40 ∧
      pyInt qxmin + (pyInt qxmax - pyInt qxmin) - offset + 50 ≤ ancho) ↔
      rectFullyInFrame alto ancho
        (paddedRect offset (pyInt qxmin) (pyInt qymin) (pyInt qxmax) (pyInt qymax)) := by
    simp only [rectFullyInFrame, pointInFrame, paddedRect]
    omega
  refine ⟨fun h => ?_, fun h => ?_, fun h => ?_⟩
  · simp only [Draw_Bound_Boxes, hx, hy, hX, hY]
    rw [if_pos (hiff.2 h)]
    have e1 : pyInt qxmin + (pyInt qxmax - pyInt qxmin) = pyInt qxmax := by ring
    have e2 : pyInt qymin + (pyInt qymax - pyInt qymin) = pyInt qymax := by ring
    rw [e1, e2]
  · simp only [Draw_Bound_Boxes, hx, hy, hX, hY]
    rw [if_neg (fun hC => h (hiff.1 hC))]
  · simp only [Draw_Bound_Boxes, hx, hy, hX, hY]
    rw [if_neg]
    intro hC
    omega

theorem C6_draw_bound_boxes_witness :
    pymin (([((60 : ℚ), (60 : ℚ), (0 : ℚ))] : List Pos).map fun p => p.1) = some 60 ∧
    pymin (([((60 : ℚ), (60 : ℚ), (0 : ℚ))] : List Pos).map fun p => p.2.1) = some 60 ∧
    pymax (([((60 : ℚ), (60 : ℚ), (0 : ℚ))] : List Pos).map fun p => p.1) = some 60 ∧
    pymax (([((60 : ℚ), (60 : ℚ), (0 : ℚ))] : List Pos).map fun p => p.2.1) = some 60 ∧
    ((rectFullyInFrame 200 200
        (paddedRect 10 (pyInt 60) (pyInt 60) (pyInt 60) (pyInt 60)) →
      Draw_Bound_Boxes (fun (b : ℕ) (_ _ : ℤ × ℤ) => b + 1) (fun b _ => b + 2) 10
          [((60 : ℚ), (60 : ℚ), (0 : ℚ))] 200 200 0 =
        some ((fun (b : ℕ) (_ : ℤ × ℤ) => b + 2)
          ((fun (b : ℕ) (_ _ : ℤ × ℤ) => b + 1) 0
            (pyInt 60 - 10 - 40, pyInt 60 - 10 - 15)
            (pyInt 60 - 10 + 50, pyInt 60 - 10 + 40))
          (pyInt 60 - 10 - 40, pyInt 60 - 10 - 20))) ∧
     (¬ rectFullyInFrame 200 200
        (paddedRect 10 (pyInt 60) (pyInt 60) (pyInt 60) (pyInt 60)) →
      Draw_Bound_Boxes (fun (b : ℕ) (_ _ : ℤ × ℤ) => b + 1) (fun b _ => b + 2) 10
          [((60 : ℚ), (60 : ℚ), (0 : ℚ))] 200 200 0 = some 0) ∧
     (pyInt 60 - 10 - 15 = -1 →
      Draw_Bound_Boxes (fun (b : ℕ) (_ _ : ℤ × ℤ) => b + 1) (fun b _ => b + 2) 10
          [((60 : ℚ), (60 : ℚ), (0 : ℚ))] 200 200 0 = some 0)) :=
  ⟨rfl, rfl, rfl, rfl,
    C6_draw_bound_boxes (fun (b : ℕ) (_ _ : ℤ × ℤ) => b + 1) (fun b _ => b + 2) 10
      [((60 : ℚ), (60 : ℚ), (0 : ℚ))] 200 200 0 60 60 60 60 rfl rfl rfl rfl⟩

/-- C9: `convert_to_yolo_format` is invariant under swapping the box's two
corners: for every `W > 0`, `H > 0` the output for `[x1, y1, x2, y2]` equals
the output for `[x2, y2, x1, y1]`. -/
theorem C9_yolo_corner_swap (W H x1 y1 x2 y2 : ℚ) (hW : 0 < W) (hH : 0 < H) :
    convert_to_yolo_format W H (x1, y1, x2, y2) =
      convert_to_yolo_format W H (x2, y2, x1, y1) := by
  unfold convert_to_yolo_format yolo_vals
  simp only
  rw [add_comm x1 x2, add_comm y1 y2, abs_sub_comm x2 x1, abs_sub_comm y2 y1]

theorem unionPointsX_cons (ancho : ℕ) (h : List Landmark) (t : List (List Landmark)) :
    unionPointsX ancho (h :: t) = handKeypointsX ancho h ++ unionPointsX ancho t := by
  simp [unionPointsX, handKeypointsX]

theorem unionPointsY_cons (alto : ℕ) (h : List Landmark) (t : List (List Landmark)) :
    unionPointsY alto (h :: t) = handKeypointsY alto h ++ unionPointsY alto t := by
  simp [unionPointsY, handKeypointsY]

theorem unionLoop_some (alto ancho : ℕ) :
    ∀ (hands : List (List Landmark)), (∀ h ∈ hands, h ≠ []) →
    ∀ a b c d, unionLoop alto ancho hands (some (a, b, c, d)) =
      some (some ((unionPointsX ancho hands).foldl min a,
                  (unionPointsY alto hands).foldl min b,
                  (unionPointsX ancho hands).foldl max c,
                  (unionPointsY alto hands).foldl max d)) := by
  intro hands
  induction hands with
  | nil =>
    intro _ a b c d
    simp [unionLoop, unionPointsX, unionPointsY]
  | cons h t ih =>
    intro hne a b c d
    have hh : h ≠ [] := hne h (List.mem_cons_self h t)
    have ht : ∀ g ∈ t, g ≠ [] := fun g hg => hne g (List.mem_cons_of_mem _ hg)
    cases h with
    | nil => exact absurd rfl hh
    | cons lm lms =>
      simp only [unionLoop, handKeypointsX, handKeypointsY, List.map_cons, pymin, pymax]
      rw [ih ht]
      rw [unionPointsX_cons, unionPointsY_cons, List.foldl_append, List.foldl_append,
        List.foldl_append, List.foldl_append]
      simp only [handKeypointsX, handKeypointsY, List.map_cons, List.foldl_cons]
      simp only [foldl_min_eq_min_foldl, foldl_max_eq_max_foldl]

/-- C2: for a detection result with at least one hand (each hand carrying at
least one landmark), `anotation_data` computes the min/max envelope over the
union of every hand's pixel-scaled landmark points, pads it by exactly 20
pixels per side (so padded width/height = raw width/height + 40,
pre-normalization), converts it with `convert_to_yolo_format`, and appends
exactly the one line `"{class_index} {x_center} {y_center} {width} {height}\n"`. -/
theorem C2_anotation_data (hands : List (List Landmark)) (labels : List String)
    (alto ancho class_index : ℕ)
    (hne : hands ≠ []) (hall : ∀ h ∈ hands, h ≠ []) :
    ∃ ux uy uX uY,
      pymin (unionPointsX ancho hands) = some ux ∧
      pymin (unionPointsY alto hands) = some uy ∧
      pymax (unionPointsX ancho hands) = some uX ∧
      pymax (unionPointsY alto hands) = some uY ∧
      anotation_data ⟨hands, labels⟩ alto ancho class_index =
        .line (natDecimal class_index ++ " " ++
          convert_to_yolo_format (ancho : ℚ) (alto : ℚ)
            (ux - 20, uy - 20, uX + 20, uY + 20) ++ "\n") ∧
      (uX + 20) - (ux - 20) = (uX - ux) + 40 ∧
      (uY + 20) - (uy - 20) = (uY - uy) + 40 := by
  cases hands with
  | nil => exact absurd rfl hne
  | cons h t =>
    have hh : h ≠ [] := hall h (List.mem_cons_self h t)
    have ht : ∀ g ∈ t, g ≠ [] := fun g hg => hall g (List.mem_cons_of_mem _ hg)
    cases h with
    | nil => exact absurd rfl hh
    | cons lm lms =>
      refine ⟨(unionPointsX ancho t).foldl min
          ((lms.map (keypointX ancho)).foldl min (keypointX ancho lm)),
        (unionPointsY alto t).foldl min
          ((lms.map (keypointY alto)).foldl min (keypointY alto lm)),
        (unionPointsX ancho t).foldl max
          ((lms.map (keypointX ancho)).foldl max (keypointX ancho lm)),
        (unionPointsY alto t).foldl max
          ((lms.map (keypointY alto)).foldl max (keypointY alto lm)),
        ?_, ?_, ?_, ?_, ?_, by ring, by ring⟩
      · rw [unionPointsX_cons]
        simp only [handKeypointsX, List.map_cons, List.cons_append, pymin,
          List.foldl_append]
      · rw [unionPointsY_cons]
        simp only [handKeypointsY, List.map_cons, List.cons_append, pymin,
          List.foldl_append]
      · rw [unionPointsX_cons]
        simp only [handKeypointsX, List.map_cons, List.cons_append, pymax,
          List.foldl_append]
      · rw [unionPointsY_cons]
        simp only [handKeypointsY, List.map_cons, List.cons_append, pymax,
          List.foldl_append]
      · have hl : unionLoop alto ancho ((lm :: lms) :: t) none =
            some (some ((unionPointsX ancho t).foldl min
                ((lms.map (keypointX ancho)).foldl min (keypointX ancho lm)),
              (unionPointsY alto t).foldl min
                ((lms.map (keypointY alto)).foldl min (keypointY alto lm)),
              (unionPointsX ancho t).foldl max
                ((lms.map (keypointX ancho)).foldl max (keypointX ancho lm)),
              (unionPointsY alto t).foldl max
                ((lms.map (keypointY alto)).foldl max (keypointY alto lm)))) := by
          simp only [unionLoop, handKeypointsX, handKeypointsY, List.map_cons,
            pymin, pymax]
          rw [unionLoop_some alto ancho t ht]
        unfold anotation_data
        simp only [hl]

theorem C2_anotation_data_witness :
    ([[Landmark.mk 0 0 0], [Landmark.mk 1 1 0]] : List (List Landmark)) ≠ [] ∧
    (∀ h ∈ ([[Landmark.mk 0 0 0], [Landmark.mk 1 1 0]] : List (List Landmark)), h ≠ []) ∧
    (∃ ux uy uX uY,
      pymin (unionPointsX 10 [[Landmark.mk 0 0 0], [Landmark.mk 1 1 0]]) = some ux ∧
      pymin (unionPointsY 10 [[Landmark.mk 0 0 0], [Landmark.mk 1 1 0]]) = some uy ∧
      pymax (unionPointsX 10 [[Landmark.mk 0 0 0], [Landmark.mk 1 1 0]]) = some uX ∧
      pymax (unionPointsY 10 [[Landmark.mk 0 0 0], [Landmark.mk 1 1 0]]) = some uY ∧
      anotation_data ⟨[[Landmark.mk 0 0 0], [Landmark.mk 1 1 0]], []⟩ 10 10 7 =
        .line (natDecimal 7 ++ " " ++
          convert_to_yolo_format ((10 : ℕ) : ℚ) ((10 : ℕ) : ℚ)
            (ux - 20, uy - 20, uX + 20, uY + 20) ++ "\n") ∧
      (uX + 20) - (ux - 20) = (uX - ux) + 40 ∧
      (uY + 20) - (uy - 20) = (uY - uy) + 40) :=
  ⟨by decide, by decide,
    C2_anotation_data [[Landmark.mk 0 0 0], [Landmark.mk 1 1 0]] [] 10 10 7
      (by decide) (by decide)⟩

/-- C4 counterexample: for a position outside the frame (x = 1000 in a
100 × 100 frame), the computed crop region is empty and `cv2.resize` fails, so
`Get_image_resized` does not return an `imgSize × imgSize` image. -/
theorem C4_counterexample :
    Get_image_resized 64 [((1000 : ℚ), (50 : ℚ), (0 : ℚ))] 100 100 = none := by
  have e1 : pyInt (1000 : ℚ) = 1000 := by
    rw [pyInt_of_nonneg (by norm_num),
      show ((1000 : ℚ)) = ((1000 : ℤ) : ℚ) by norm_num, Int.floor_intCast]
  have e2 : pyInt (50 : ℚ) = 50 := by
    rw [pyInt_of_nonneg (by norm_num),
      show ((50 : ℚ)) = ((50 : ℤ) : ℚ) by norm_num, Int.floor_intCast]
  simp only [Get_image_resized, List.map_cons, List.map_nil, pymin, pymax,
    List.foldl_nil, e1, e2]
  have e3 : pyInt (((1000 + 1000 : ℤ) : ℚ) / 2) = 1000 := by
    rw [show (((1000 + 1000 : ℤ) : ℚ) / 2) = ((1000 : ℤ) : ℚ) by push_cast; norm_num,
      pyInt_of_nonneg (by norm_num), Int.floor_intCast]
  have e4 : pyInt (((50 + 50 : ℤ) : ℚ) / 2) = 50 := by
    rw [show (((50 + 50 : ℤ) : ℚ) / 2) = ((50 : ℤ) : ℚ) by push_cast; norm_num,
      pyInt_of_nonneg (by norm_num), Int.floor_intCast]
  have e5 : pyInt ((((max (1000 - 1000) (50 - 50) : ℤ)) : ℚ) / 2) = 0 := by
    rw [show ((((max (1000 - 1000) (50 - 50) : ℤ)) : ℚ) / 2) = ((0 : ℤ) : ℚ) by
        push_cast; norm_num,
      pyInt_of_nonneg (by norm_num), Int.floor_intCast]
  rw [e3, e4, e5]
  decide

/-- C4 (amended): for a non-empty position list whose points all lie inside the
frame, and a positive configured `imgSize`, `Get_image_resized` builds the
padded square region with non-negative clamped top-left corner and extents
clamped against the remaining frame width/height, and the returned image has
exact dimensions `imgSize × imgSize` regardless of the input aspect ratio. For
positions outside the frame the crop can be empty and the resize step fails
instead. -/
theorem C4_crop_size (imgSize : ℕ) (positions : List Pos) (alto ancho : ℕ)
    (hne : positions ≠ [])
    (hin : ∀ p ∈ positions,
      0 ≤ p.1 ∧ p.1 < (ancho : ℚ) ∧ 0 ≤ p.2.1 ∧ p.2.1 < (alto : ℚ))
    (himg : 0 < imgSize) :
    Get_image_resized imgSize positions alto ancho = some (imgSize, imgSize) := by
  have hmx : positions.map (fun p => p.1) ≠ [] := by
    cases positions with
    | nil => exact absurd rfl hne
    | cons p ps => simp
  have hmy : positions.map (fun p => p.2.1) ≠ [] := by
    cases positions with
    | nil => exact absurd rfl hne
    | cons p ps => simp
  obtain ⟨qxmin, hx⟩ := pymin_isSome hmx
  obtain ⟨qymin, hy⟩ := pymin_isSome hmy
  obtain ⟨qxmax, hX⟩ := pymax_isSome hmx
  obtain ⟨qymax, hY⟩ := pymax_isSome hmy
  obtain ⟨p1, hp1, hp1e⟩ := List.mem_map.1 (pymin_mem hx)
  obtain ⟨p2, hp2, hp2e⟩ := List.mem_map.1 (pymin_mem hy)
  obtain ⟨p3, hp3, hp3e⟩ := List.mem_map.1 (pymax_mem hX)
  obtain ⟨p4, hp4, hp4e⟩ := List.mem_map.1 (pymax_mem hY)
  have hbx1 : 0 ≤ qxmin ∧ qxmin < (ancho : ℚ) := by
    rw [← hp1e]; exact ⟨(hin p1 hp1).1, (hin p1 hp1).2.1⟩
  have hby1 : 0 ≤ qymin ∧ qymin < (alto : ℚ) := by
    rw [← hp2e]; exact ⟨(hin p2 hp2).2.2.1, (hin p2 hp2).2.2.2⟩
  have hbx2 : 0 ≤ qxmax ∧ qxmax < (ancho : ℚ) := by
    rw [← hp3e]; exact ⟨(hin p3 hp3).1, (hin p3 hp3).2.1⟩
  have hby2 : 0 ≤ qymax ∧ qymax < (alto : ℚ) := by
    rw [← hp4e]; exact ⟨(hin p4 hp4).2.2.1, (hin p4 hp4).2.2.2⟩
  have hA0 : 0 ≤ pyInt qxmin := pyInt_nonneg hbx1.1
  have hA1 : pyInt qxmin < (ancho : ℤ) := pyInt_lt_nat hbx1.1 hbx1.2
  have hB0 : 0 ≤ pyInt qxmax := pyInt_nonneg hbx2.1
  have hB1 : pyInt qxmax < (ancho : ℤ) := pyInt_lt_nat hbx2.1 hbx2.2
  have hC0 : 0 ≤ pyInt qymin := pyInt_nonneg hby1.1
  have hC1 : pyInt qymin < (alto : ℤ) := pyInt_lt_nat hby1.1 hby1.2
  have hD0 : 0 ≤ pyInt qymax := pyInt_nonneg hby2.1
  have hD1 : pyInt qymax < (alto : ℤ) := pyInt_lt_nat hby2.1 hby2.2
  have hAB : pyInt qxmin ≤ pyInt qxmax := pyInt_mono (pymin_le_pymax hx hX)
  have hCD : pyInt qymin ≤ pyInt qymax := pyInt_mono (pymin_le_pymax hy hY)
  have hcx0 : 0 ≤ pyInt (((pyInt qxmin + pyInt qxmax : ℤ) : ℚ) / 2) := by
    apply pyInt_nonneg
    have : (0 : ℚ) ≤ ((pyInt qxmin + pyInt qxmax : ℤ) : ℚ) := by
      exact_mod_cast add_nonneg hA0 hB0
    linarith
  have hcx1 : pyInt (((pyInt qxmin + pyInt qxmax : ℤ) : ℚ) / 2) ≤ (ancho : ℤ) - 1 := by
    apply pyInt_le_int
    · have : (0 : ℚ) ≤ ((pyInt qxmin + pyInt qxmax : ℤ) : ℚ) := by
        exact_mod_cast add_nonneg hA0 hB0
      linarith
    · have h1 : pyInt qxmin + pyInt qxmax ≤ 2 * ((ancho : ℤ) - 1) := by omega
      have h2 : ((pyInt qxmin + pyInt qxmax : ℤ) : ℚ) ≤ ((2 * ((ancho : ℤ) - 1) : ℤ) : ℚ) := by
        exact_mod_cast h1
      push_cast at h2 ⊢
      linarith
  have hcy0 : 0 ≤ pyInt (((pyInt qymin + pyInt qymax : ℤ) : ℚ) / 2) := by
    apply pyInt_nonneg
    have : (0 : ℚ) ≤ ((pyInt qymin + pyInt qymax : ℤ) : ℚ) := by
      exact_mod_cast add_nonneg hC0 hD0
    linarith
  have hcy1 : pyInt (((pyInt qymin + pyInt qymax : ℤ) : ℚ) / 2) ≤ (alto : ℤ) - 1 := by
    apply pyInt_le_int
    · have : (0 : ℚ) ≤ ((pyInt qymin + pyInt qymax : ℤ) : ℚ) := by
        exact_mod_cast add_nonneg hC0 hD0
      linarith
    · have h1 : pyInt qymin + pyInt qymax ≤ 2 * ((alto : ℤ) - 1) := by omega
      have h2 : ((pyInt qymin + pyInt qymax : ℤ) : ℚ) ≤ ((2 * ((alto : ℤ) - 1) : ℤ) : ℚ) := by
        exact_mod_cast h1
      push_cast at h2 ⊢
      linarith
  have hhl : 0 ≤ pyInt ((((max (pyInt qxmax - pyInt qxmin)
      (pyInt qymax - pyInt qymin) : ℤ)) : ℚ) / 2) := by
    apply pyInt_nonneg
    have h1 : (0 : ℤ) ≤ max (pyInt qxmax - pyInt qxmin) (pyInt qymax - pyInt qymin) := by
      omega
    have h2 : (0 : ℚ) ≤ ((max (pyInt qxmax - pyInt qxmin)
        (pyInt qymax - pyInt qymin) : ℤ) : ℚ) := by
      exact_mod_cast h1
    linarith
  simp only [Get_image_resized, hx, hy, hX, hY, clampIdx]
  rw [if_neg]
  omega

theorem C4_crop_size_witness :
    ([((5 : ℚ), (5 : ℚ), (0 : ℚ))] : List Pos) ≠ [] ∧
    (∀ p ∈ ([((5 : ℚ), (5 : ℚ), (0 : ℚ))] : List Pos),
      0 ≤ p.1 ∧ p.1 < ((100 : ℕ) : ℚ) ∧ 0 ≤ p.2.1 ∧ p.2.1 < ((100 : ℕ) : ℚ)) ∧
    0 < 64 ∧
    Get_image_resized 64 [((5 : ℚ), (5 : ℚ), (0 : ℚ))] 100 100 = some (64, 64) :=
  ⟨by decide, by intro p hp; simp at hp; subst hp; norm_num, by norm_num,
    C4_crop_size 64 [((5 : ℚ), (5 : ℚ), (0 : ℚ))] 100 100 (by decide)
      (by intro p hp; simp at hp; subst hp; norm_num) (by norm_num)⟩

theorem suffixed_name_inj (base : String) : Function.Injective (suffixed_name base) := by
  intro m n h
  have hd := congrArg String.data h
  simp only [suffixed_name, String.data_append, List.append_assoc] at hd
  have h1 := List.append_cancel_left hd
  have h2 := List.append_cancel_left h1
  have h3 := List.append_cancel_right h2
  exact natDecimal_injective (String.ext h3)

theorem exists_free_suffixed (taken : List String) (base : String) :
    ∃ j, 1 ≤ j ∧ j ≤ taken.length + 1 ∧ suffixed_name base j ∉ taken := by
  by_contra hcon
  push_neg at hcon
  have hinj : Function.Injective (fun i : ℕ => suffixed_name base (i + 1)) := by
    intro i j hij
    have := suffixed_name_inj base hij
    omega
  have hsub : (Finset.range (taken.length + 1)).image
      (fun i => suffixed_name base (i + 1)) ⊆ taken.toFinset := by
    intro s hs
    obtain ⟨i, hi, rfl⟩ := Finset.mem_image.1 hs
    rw [List.mem_toFinset]
    exact hcon (i + 1) (by omega) (by have := Finset.mem_range.1 hi; omega)
  have hcard := Finset.card_le_card hsub
  rw [Finset.card_image_of_injective _ hinj, Finset.card_range] at hcard
  have htf := List.toFinset_card_le (l := taken)
  omega

theorem probe_free_name_spec (taken : List String) (base : String) :
    ∀ fuel start,
      (∃ j, start ≤ j ∧ j < start + fuel ∧ suffixed_name base j ∉ taken) →
      ∃ n, start ≤ n ∧
        probe_free_name taken base fuel start = some (suffixed_name base n) ∧
        suffixed_name base n ∉ taken ∧
        ∀ k, start ≤ k → k < n → suffixed_name base k ∈ taken := by
  intro fuel
  induction fuel with
  | zero =>
    intro start h
    exfalso
    obtain ⟨j, hj1, hj2, _⟩ := h
    omega
  | succ fuel ih =>
    intro start h
    obtain ⟨j, hj1, hj2, hj3⟩ := h
    by_cases hmem : suffixed_name base start ∈ taken
    · have hjs : j ≠ start := fun he => hj3 (he ▸ hmem)
      obtain ⟨n, hn1, hn2, hn3, hn4⟩ := ih (start + 1) ⟨j, by omega, by omega, hj3⟩
      refine ⟨n, by omega, ?_, hn3, ?_⟩
      · simp only [probe_free_name, if_pos hmem]
        exact hn2
      · intro k hk1 hk2
        rcases eq_or_lt_of_le hk1 with rfl | hk
        · exact hmem
        · exact hn4 k (by omega) hk2
    · refine ⟨start, le_rfl, ?_, hmem, ?_⟩
      · simp only [probe_free_name, if_neg hmem]
      · intro k hk1 hk2
        omega

/-- C10: the collision-avoidance probe loop of `Save_resized_hand` terminates
on every call: for any finite list of existing paths there is an index
`n ≥ 1` whose suffixed candidate is not among them, and the probe loop (run
with the sufficient fuel `taken.length + 1` from index 1) halts with such a
free candidate path. -/
theorem C10_probe_terminates (taken : List String)
    (DATA_PATH action hand_type : String) (sequence count : ℕ) :
    (∃ j, 1 ≤ j ∧
      suffixed_name (base_name DATA_PATH action hand_type sequence count) j ∉ taken) ∧
    (∃ n, 1 ≤ n ∧
      probe_free_name taken (base_name DATA_PATH action hand_type sequence count)
          (taken.length + 1) 1 =
        some (suffixed_name (base_name DATA_PATH action hand_type sequence count) n) ∧
      suffixed_name (base_name DATA_PATH action hand_type sequence count) n ∉ taken) := by
  obtain ⟨j, hj1, hj2, hj3⟩ :=
    exists_free_suffixed taken (base_name DATA_PATH action hand_type sequence count)
  refine ⟨⟨j, hj1, hj3⟩, ?_⟩
  obtain ⟨n, hn1, hn2, hn3, _⟩ :=
    probe_free_name_spec taken (base_name DATA_PATH action hand_type sequence count)
      (taken.length + 1) 1 ⟨j, hj1, by omega, hj3⟩
  exact ⟨n, hn1, hn2, hn3⟩

/-- C5: when the canonical target path already exists, the save routine probes
the suffixed variants `_1`, `_2`, … in order and chooses the first name not
already present, so no existing file is overwritten; in particular with the
canonical path taken and `_1` free it chooses `_1`, and with `_1` also taken
and `_2` free it chooses `_2`. -/
theorem C5_save_collision (taken : List String)
    (DATA_PATH action hand_type : String) (sequence count : ℕ)
    (hcanon : base_name DATA_PATH action hand_type sequence count ++ ".png" ∈ taken) :
    (∃ n, 1 ≤ n ∧
      Save_resized_hand_path taken DATA_PATH action hand_type sequence count =
        some (suffixed_name (base_name DATA_PATH action hand_type sequence count) n) ∧
      suffixed_name (base_name DATA_PATH action hand_type sequence count) n ∉ taken ∧
      ∀ k, 1 ≤ k → k < n →
        suffixed_name (base_name DATA_PATH action hand_type sequence count) k ∈ taken) ∧
    (suffixed_name (base_name DATA_PATH action hand_type sequence count) 1 ∉ taken →
      Save_resized_hand_path taken DATA_PATH action hand_type sequence count =
        some (suffixed_name (base_name DATA_PATH action hand_type sequence count) 1)) ∧
    (suffixed_name (base_name DATA_PATH action hand_type sequence count) 1 ∈ taken →
      suffixed_name (base_name DATA_PATH action hand_type sequence count) 2 ∉ taken →
      Save_resized_hand_path taken DATA_PATH action hand_type sequence count =
        some (suffixed_name (base_name DATA_PATH action hand_type sequence count) 2)) := by
  obtain ⟨j, hj1, hj2, hj3⟩ :=
    exists_free_suffixed taken (base_name DATA_PATH action hand_type sequence count)
  obtain ⟨n, hn1, hn2, hn3, hn4⟩ :=
    probe_free_name_spec taken (base_name DATA_PATH action hand_type sequence count)
      (taken.length + 1) 1 ⟨j, hj1, by omega, hj3⟩
  have hsave : Save_resized_hand_path taken DATA_PATH action hand_type sequence count =
      probe_free_name taken (base_name DATA_PATH action hand_type sequence count)
        (taken.length + 1) 1 := by
    simp only [Save_resized_hand_path, if_pos hcanon]
  refine ⟨⟨n, hn1, by rw [hsave]; exact hn2, hn3, hn4⟩, ?_, ?_⟩
  · intro h1free
    have he : n = 1 := by
      by_contra hne1
      exact h1free (hn4 1 le_rfl (by omega))
    rw [hsave]
    exact he ▸ hn2
  · intro h1mem h2free
    have he : n = 2 := by
      rcases Nat.lt_or_ge n 2 with h | h
      · exfalso
        have h1 : n = 1 := by omega
        apply hn3
        rw [h1]
        exact h1mem
      · rcases Nat.lt_or_ge 2 n with h' | h'
        · exact absurd (hn4 2 (by omega) h') h2free
        · omega
    rw [hsave]
    exact he ▸ hn2

theorem C5_save_collision_witness :
    base_name "d" "a" "L" 0 0 ++ ".png" ∈ [base_name "d" "a" "L" 0 0 ++ ".png"] ∧
    ((∃ n, 1 ≤ n ∧
      Save_resized_hand_path [base_name "d" "a" "L" 0 0 ++ ".png"] "d" "a" "L" 0 0 =
        some (suffixed_name (base_name "d" "a" "L" 0 0) n) ∧
      suffixed_name (base_name "d" "a" "L" 0 0) n ∉
        [base_name "d" "a" "L" 0 0 ++ ".png"] ∧
      ∀ k, 1 ≤ k → k < n →
        suffixed_name (base_name "d" "a" "L" 0 0) k ∈
          [base_name "d" "a" "L" 0 0 ++ ".png"]) ∧
    (suffixed_name (base_name "d" "a" "L" 0 0) 1 ∉
        [base_name "d" "a" "L" 0 0 ++ ".png"] →
      Save_resized_hand_path [base_name "d" "a" "L" 0 0 ++ ".png"] "d" "a" "L" 0 0 =
        some (suffixed_name (base_name "d" "a" "L" 0 0) 1)) ∧
    (suffixed_name (base_name "d" "a" "L" 0 0) 1 ∈
        [base_name "d" "a" "L" 0 0 ++ ".png"] →
      suffixed_name (base_name "d" "a" "L" 0 0) 2 ∉
        [base_name "d" "a" "L" 0 0 ++ ".png"] →
      Save_resized_hand_path [base_name "d" "a" "L" 0 0 ++ ".png"] "d" "a" "L" 0 0 =
        some (suffixed_name (base_name "d" "a" "L" 0 0) 2))) :=
  ⟨by decide,
    C5_save_collision [base_name "d" "a" "L" 0 0 ++ ".png"] "d" "a" "L" 0 0 (by decide)⟩

theorem C9_yolo_corner_swap_witness :
    (0 : ℚ) < 5 ∧
    convert_to_yolo_format 5 5 ((1 : ℚ), (2 : ℚ), (3 : ℚ), (4 : ℚ)) =
      convert_to_yolo_format 5 5 ((3 : ℚ), (4 : ℚ), (1 : ℚ), (2 : ℚ)) :=
  ⟨by norm_num, C9_yolo_corner_swap 5 5 1 2 3 4 (by norm_num) (by norm_num)⟩

end HandSepak
